import Mathlib

/-!
Verification of the UnderdogCowboy conversation-state engine.

This file gives a shallow embedding of the core of the repository
(`underdogcowboy/core/timeline_editor.py`, `underdogcowboy/core/model.py`,
`underdogcowboy/core/bck_dialog_manager.py`) and proves or refutes the
frozen claims about it.

Modelling conventions:
* Python lists become `List`, Python ints become `Int`/`Nat`.
* Python `list.insert` clamps its index; `listInsertIdx` below reproduces
  that behaviour exactly (Lean core's `List.insertIdx` instead drops
  out-of-range insertions, so it is not used).
* File-system access is a parameter `fs : String → Option String`
  (`none` models a missing file / `FileNotFoundError`).
* A function that can raise an uncaught Python exception returns `Option`
  (`none` = the exception propagates).
* The network boundary of a model provider is a parameter; the provider
  classes' post-boundary logic is embedded directly.
-/

namespace UDC

/-- The whitespace characters stripped by Python `str.strip()`. -/
def isPySpace (c : Char) : Bool :=
  c == ' ' || c == '\t' || c == '\n' || c == '\r' ||
  c == Char.ofNat 11 || c == Char.ofNat 12

/-- Python `str.strip()` on a list of characters. -/
def pyStripList (cs : List Char) : List Char :=
  ((cs.dropWhile isPySpace).reverse.dropWhile isPySpace).reverse

/-- Python `str.strip()`. -/
def pyStrip (s : String) : String :=
  String.mk (pyStripList s.data)

/-- Python `str.startswith(pre)`. -/
def pyStartsWith (s pre : String) : Bool :=
  pre.data.isPrefixOf s.data

/-- Auxiliary fuel-based splitter implementing Python `str.split(sep)` for a
non-empty separator: non-overlapping left-to-right matches, empty pieces
kept.  The fuel is an upper bound on the number of steps; callers pass
`length + 1` which always suffices. -/
def pySplitListAux (sep : List Char) : Nat → List Char → List Char → List (List Char)
  | 0, acc, rest => [acc ++ rest]
  | fuel + 1, acc, rest =>
    if sep ≠ [] ∧ sep.isPrefixOf rest then
      acc :: pySplitListAux sep fuel [] (rest.drop sep.length)
    else
      match rest with
      | [] => [acc]
      | c :: rest' => pySplitListAux sep fuel (acc ++ [c]) rest'

/-- Python `s.split(sep)` for a non-empty separator. -/
def pySplit (s sep : String) : List String :=
  (pySplitListAux sep.data (s.data.length + 1) [] s.data).map String.mk

/-- Python `list.insert j x`: inserts at position `j`, appending at the end
when `j` exceeds the length (CPython clamps the index). -/
def listInsertIdx {α : Type} : Nat → α → List α → List α
  | 0, x, l => x :: l
  | _ + 1, x, [] => [x]
  | n + 1, x, a :: l => a :: listInsertIdx n x l

/-- Python `list.insert i x` for a possibly negative index `i`
(negative indices count from the end and are clamped at 0). -/
def pyInsert {α : Type} (l : List α) (i : Int) (x : α) : List α :=
  let j : Nat := if i < 0 then ((l.length : Int) + i).toNat else i.toNat
  listInsertIdx j x l

/-- The apostrophe character, kept out of string literals. -/
def apos : String := String.singleton (Char.ofNat 39)

/-- A conversation message (`timeline_editor.Message`): a `role` and a `text`. -/
structure Message where
  role : String
  text : String
deriving DecidableEq, Repr, Inhabited

/-- A frozen segment `{start, end}` (inclusive bounds), as stored in a
timeline's metadata.  The Python key `end` is a Lean keyword, hence the
quoted field name. -/
structure Segment where
  start : Nat
  «end» : Nat
deriving DecidableEq, Repr, Inhabited

/-- The `Timeline` state (`timeline_editor.Timeline.__init__`). -/
structure Timeline where
  history : List Message
  current_position : Int
  frozen_segments : List Segment
  start_mode : String
  loaded_filename : Option String
deriving DecidableEq, Repr, Inhabited

/-- A freshly constructed `Timeline()`. -/
def Timeline.init : Timeline :=
  { history := []
    current_position := 0
    frozen_segments := []
    start_mode := "interactive"
    loaded_filename := none }

/-- Embeds `Timeline.add_message(role, text)`: builds the message, inserts it at
`current_position + 1` via Python `list.insert`, and sets
`current_position` to that insertion index. -/
def Timeline.add_message (t : Timeline) (role text : String) : Timeline :=
  let insert_index := t.current_position + 1
  { t with
    history := pyInsert t.history insert_index (Message.mk role text)
    current_position := insert_index }

/- ### Basic lemmas about the Python-style insertion -/

theorem listInsertIdx_length {α : Type} (x : α) :
    ∀ (j : Nat) (l : List α), (listInsertIdx j x l).length = l.length + 1 := by
  intro j
  induction j with
  | zero => intro l; rfl
  | succ n ih =>
    intro l
    cases l with
    | nil => rfl
    | cons a l' => simpa [listInsertIdx] using ih l'

theorem listInsertIdx_of_length_le {α : Type} (x : α) :
    ∀ (j : Nat) (l : List α), l.length ≤ j → listInsertIdx j x l = l ++ [x] := by
  intro j
  induction j with
  | zero =>
    intro l h
    have : l = [] := List.length_eq_zero.mp (Nat.le_zero.mp h)
    subst this; rfl
  | succ n ih =>
    intro l h
    cases l with
    | nil => rfl
    | cons a l' =>
      have h' : l'.length ≤ n := Nat.le_of_succ_le_succ (by simpa using h)
      simpa [listInsertIdx] using ih l' h'

theorem listInsertIdx_eq_take_drop {α : Type} (x : α) :
    ∀ (j : Nat) (l : List α), j ≤ l.length →
      listInsertIdx j x l = l.take j ++ x :: l.drop j := by
  intro j
  induction j with
  | zero => intro l _; rfl
  | succ n ih =>
    intro l h
    cases l with
    | nil => simp at h
    | cons a l' =>
      have h' : n ≤ l'.length := Nat.le_of_succ_le_succ (by simpa using h)
      simpa [listInsertIdx] using ih l' h'

/- ### Claims C2 and C3: cursor-relative insertion and the position invariant -/

/-- Claim C2 (counterexample): on the freshly created empty Timeline (where
`current_position = 0`), `add_message` does not insert at index
`current_position + 1 = 1`; Python clamps the insertion to index 0, and
`current_position` is set to 1, which is not the new message's index. -/
theorem add_message_insert_counterexample :
    (Timeline.init.add_message "user" "hi").history.get?
        ((Timeline.init.current_position + 1).toNat) = none ∧
    (Timeline.init.add_message "user" "hi").history.get? 0 =
        some (Message.mk "user" "hi") ∧
    (Timeline.init.add_message "user" "hi").current_position = 1 := by
  decide

/-- Claim C2 (amended): for every Timeline whose cursor satisfies
`0 ≤ current_position < len(history)` (in particular any non-empty Timeline
satisfying the position invariant, including one whose cursor was moved
backward), `add_message` inserts the new message at index
`current_position + 1`, pushing the later messages forward, and sets
`current_position` to the new message's index. -/
theorem add_message_insert_after_cursor (t : Timeline) (role text : String)
    (h0 : 0 ≤ t.current_position)
    (h1 : t.current_position < (t.history.length : Int)) :
    (t.add_message role text).history =
        t.history.take (t.current_position + 1).toNat ++
          Message.mk role text :: t.history.drop (t.current_position + 1).toNat ∧
    (t.add_message role text).current_position = t.current_position + 1 ∧
    (t.add_message role text).history.get? (t.current_position + 1).toNat =
        some (Message.mk role text) := by
  have hnn : 0 ≤ t.current_position + 1 := by omega
  have hj : (t.current_position + 1).toNat ≤ t.history.length := by omega
  have hins : pyInsert t.history (t.current_position + 1) (Message.mk role text) =
      t.history.take (t.current_position + 1).toNat ++
        Message.mk role text :: t.history.drop (t.current_position + 1).toNat := by
    unfold pyInsert
    have : ¬ (t.current_position + 1 < 0) := by omega
    simp only [this, if_false]
    exact listInsertIdx_eq_take_drop _ _ _ hj
  refine ⟨?_, rfl, ?_⟩
  · simpa [Timeline.add_message] using hins
  · have hlen : (t.history.take (t.current_position + 1).toNat).length =
        (t.current_position + 1).toNat := by
      simp [List.length_take]; omega
    have : (t.history.take (t.current_position + 1).toNat ++
        Message.mk role text :: t.history.drop (t.current_position + 1).toNat).get?
          (t.current_position + 1).toNat = some (Message.mk role text) := by
      rw [List.get?_append_right (by omega)]
      simp [hlen]
    simpa [Timeline.add_message, hins] using this

/-- Claim C2 (witness): a Timeline with three messages and the cursor moved
back to index 0; `add_message` inserts at index 1 (not at the tail) and
advances the cursor to 1. -/
theorem add_message_insert_after_cursor_witness :
    (0 ≤ (Timeline.mk [Message.mk "user" "a", Message.mk "model" "b",
        Message.mk "user" "c"] 0 [] "interactive" none).current_position ∧
     (Timeline.mk [Message.mk "user" "a", Message.mk "model" "b",
        Message.mk "user" "c"] 0 [] "interactive" none).current_position <
       (((Timeline.mk [Message.mk "user" "a", Message.mk "model" "b",
        Message.mk "user" "c"] 0 [] "interactive" none).history.length : Int))) ∧
    ((Timeline.mk [Message.mk "user" "a", Message.mk "model" "b",
        Message.mk "user" "c"] 0 [] "interactive" none).add_message "user" "new").history =
      [Message.mk "user" "a", Message.mk "user" "new", Message.mk "model" "b",
        Message.mk "user" "c"] := by
  refine ⟨⟨by decide, by decide⟩, ?_⟩
  have h := add_message_insert_after_cursor
    (Timeline.mk [Message.mk "user" "a", Message.mk "model" "b",
        Message.mk "user" "c"] 0 [] "interactive" none)
    "user" "new" (by decide) (by decide)
  exact h.1.trans (by decide)

/-- Claim C3 (counterexample): starting from the freshly created empty
Timeline (which satisfies the invariant vacuously, with
`current_position = 0`), a single `add_message` leaves
`current_position = 1 = len(history)`, violating
`current_position < len(history)` on a non-empty history. -/
theorem add_message_invariant_counterexample :
    (Timeline.init.add_message "user" "a").history.length = 1 ∧
    (Timeline.init.add_message "user" "a").current_position = 1 ∧
    ¬ ((Timeline.init.add_message "user" "a").current_position <
        (((Timeline.init.add_message "user" "a").history.length : Int))) := by
  decide

/-- Claim C3 (amended): `add_message` preserves the invariant
`0 ≤ current_position < len(history)` for every Timeline with a non-empty
history that already satisfies it; the freshly created empty Timeline is
the exception (see the counterexample). -/
theorem add_message_preserves_invariant (t : Timeline) (role text : String)
    (h0 : 0 ≤ t.current_position)
    (h1 : t.current_position < (t.history.length : Int)) :
    0 ≤ (t.add_message role text).current_position ∧
    (t.add_message role text).current_position <
      (((t.add_message role text).history.length : Int)) := by
  constructor
  · simp only [Timeline.add_message]; omega
  · have hlen : (t.add_message role text).history.length = t.history.length + 1 := by
      simp [Timeline.add_message, pyInsert, listInsertIdx_length]
    rw [hlen]
    simp only [Timeline.add_message]
    push_cast
    omega

/-- Claim C3 (witness): the invariant is preserved on a concrete two-message
Timeline with the cursor at index 0. -/
theorem add_message_preserves_invariant_witness :
    (0 ≤ (Timeline.mk [Message.mk "user" "a", Message.mk "model" "b"]
        0 [] "interactive" none).current_position ∧
     (Timeline.mk [Message.mk "user" "a", Message.mk "model" "b"]
        0 [] "interactive" none).current_position <
       (((Timeline.mk [Message.mk "user" "a", Message.mk "model" "b"]
        0 [] "interactive" none).history.length : Int))) ∧
    (0 ≤ ((Timeline.mk [Message.mk "user" "a", Message.mk "model" "b"]
        0 [] "interactive" none).add_message "user" "x").current_position ∧
     ((Timeline.mk [Message.mk "user" "a", Message.mk "model" "b"]
        0 [] "interactive" none).add_message "user" "x").current_position <
       ((((Timeline.mk [Message.mk "user" "a", Message.mk "model" "b"]
        0 [] "interactive" none).add_message "user" "x").history.length : Int))) :=
  ⟨⟨by decide, by decide⟩,
   add_message_preserves_invariant
     (Timeline.mk [Message.mk "user" "a", Message.mk "model" "b"]
        0 [] "interactive" none) "user" "x" (by decide) (by decide)⟩

/- ### Persistence: `Timeline.save` and `Timeline.load` -/

/-- The `metadata` object written by `Timeline.save`. -/
structure TimelineMetadata where
  frozenSegments : List Segment
  startMode : String
  name : String
  description : String
deriving DecidableEq, Repr, Inhabited

/-- The JSON document written by `Timeline.save` and read by
`Timeline.load`: the serialized history plus the metadata. -/
structure SavedTimeline where
  history : List Message
  metadata : TimelineMetadata
deriving DecidableEq, Repr, Inhabited

/-- Embeds `Timeline.save(filename, name, description, path)`: serializes the
history and metadata.  `start_mode` is derived: `frozen` iff the first
frozen segment starts at index 0.  The file write itself is the boundary;
this definition returns the written document.  (In Python, missing
`name`/`description` are prompted for interactively; here the caller
supplies them, as the spec requires.) -/
def Timeline.save (t : Timeline) (name description : String) : SavedTimeline :=
  let start_mode :=
    match t.frozen_segments with
    | [] => "interactive"
    | s :: _ => if s.start = 0 then "frozen" else "interactive"
  { history := t.history
    metadata :=
      { frozenSegments := t.frozen_segments
        startMode := start_mode
        name := name
        description := description } }

/-- Embeds `Timeline.reconstruct_message(message_data)`: a message whose text
begins with `"File sent: "` has the referenced file re-read from disk
(`fs`); on success the content is re-appended under a `File Content:`
section, and a missing file yields an inline error note instead. -/
def Timeline.reconstruct_message (fs : String → Option String) (m : Message) : Message :=
  if pyStartsWith m.text "File sent: " then
    let file_path_part := (pySplit m.text "File sent: ").getD 1 ""
    let file_path := (pySplit file_path_part "\n\nFile Content:\n").getD 0 ""
    let base_text := (pySplit m.text "\n\nFile Content:\n").getD 0 ""
    match fs file_path with
    | some file_content =>
        Message.mk m.role (base_text ++ "\n\nFile Content:\n" ++ file_content)
    | none =>
        Message.mk m.role
          (base_text ++ "\nError: File not found at " ++ apos ++ file_path ++ apos)
  else
    Message.mk m.role m.text

/-- The length of the inclusive index range of a segment
(`range(start, end + 1)` in `Timeline.load`). -/
def segLen (s : Segment) : Nat := s.«end» + 1 - s.start

/-- The inner loop of `Timeline.load` over one segment's index range:
appends `initial_history[idx]` (reconstructed) for each index, records
`index_mapping[idx] = new_index`, and increments `new_index`.  `none`
models the `IndexError` raised on an out-of-range index.  The mapping is
an association list with the most recent binding in front, matching
Python dict overwrite semantics. -/
def loadIndices (fs : String → Option String) (ih : List Message) :
    List Nat → List Message → List (Nat × Nat) → Nat →
    Option (List Message × List (Nat × Nat) × Nat)
  | [], hist, mapping, ni => some (hist, mapping, ni)
  | idx :: rest, hist, mapping, ni =>
    match ih.get? idx with
    | none => none
    | some md =>
        loadIndices fs ih rest (hist ++ [Timeline.reconstruct_message fs md])
          ((idx, ni) :: mapping) (ni + 1)

/-- The outer loop of `Timeline.load` over the persisted frozen segments. -/
def loadSegments (fs : String → Option String) (ih : List Message) :
    List Segment → List Message → List (Nat × Nat) → Nat →
    Option (List Message × List (Nat × Nat) × Nat)
  | [], hist, mapping, ni => some (hist, mapping, ni)
  | seg :: rest, hist, mapping, ni =>
    match loadIndices fs ih (List.range' seg.start (segLen seg)) hist mapping ni with
    | none => none
    | some (h, m, n) => loadSegments fs ih rest h m n

/-- First-match association lookup, i.e. Python dict access on the mapping
built by `loadIndices` (most recent binding first). -/
def lookupNat (key : Nat) : List (Nat × Nat) → Option Nat
  | [] => none
  | (k, v) :: rest => if k = key then some v else lookupNat key rest

/-- The remapping loop of `Timeline.load`: each persisted segment's
`start`/`end` is replaced by its position in the freshly built history,
via `index_mapping`.  `none` models the `KeyError` raised when an index
was never assigned. -/
def remapSegments (mapping : List (Nat × Nat)) : List Segment → Option (List Segment)
  | [] => some []
  | seg :: rest =>
    match lookupNat seg.start mapping, lookupNat seg.«end» mapping,
        remapSegments mapping rest with
    | some ns, some ne, some tail => some (Segment.mk ns ne :: tail)
    | _, _, _ => none

/-- Embeds `Timeline.load(filename, path)`: clears history and frozen segments,
then either reloads the entire history (no frozen segments; cursor at the
last index, which is `-1` for an empty history) or keeps only the
messages inside the frozen segments, remapping the segments to the new
history and placing the cursor at the first remapped segment's start.
`none` models an uncaught exception during the rebuild. -/
def Timeline.load (t : Timeline) (data : SavedTimeline)
    (fs : String → Option String) (filename : String) : Option Timeline :=
  let initial_history := data.history
  let sm := data.metadata.startMode
  match data.metadata.frozenSegments with
  | [] =>
      some { t with
        history := initial_history.map (Timeline.reconstruct_message fs)
        frozen_segments := []
        start_mode := sm
        current_position := (initial_history.length : Int) - 1
        loaded_filename := some filename }
  | seg :: rest =>
      match loadSegments fs initial_history (seg :: rest) [] [] 0 with
      | none => none
      | some (newHist, mapping, _) =>
        match remapSegments mapping (seg :: rest) with
        | none => none
        | some newSegs =>
          match newSegs with
          | [] => none
          | first :: others =>
            some { t with
              history := newHist
              frozen_segments := first :: others
              start_mode := sm
              current_position := (first.start : Int)
              loaded_filename := some filename }

/- ### Claim C5: round trip with no frozen segments -/

/-- Reconstruction is the identity on a message whose text does not start
with the `"File sent: "` marker. -/
theorem reconstruct_message_of_not_marker (fs : String → Option String)
    (m : Message) (h : pyStartsWith m.text "File sent: " = false) :
    Timeline.reconstruct_message fs m = m := by
  unfold Timeline.reconstruct_message
  rw [h]
  simp

/-- Claim C5 (counterexample): a Timeline with no frozen segments holding
the single message `File sent: /x`; saving and reloading with `/x` absent
from disk appends an inline error note, so the reloaded history differs
from the saved one. -/
theorem save_load_roundtrip_counterexample :
    (Timeline.mk [Message.mk "user" "File sent: /x"] 0 [] "interactive"
        none).frozen_segments = [] ∧
    (Timeline.load Timeline.init
        ((Timeline.mk [Message.mk "user" "File sent: /x"] 0 [] "interactive"
          none).save "n" "d")
        (fun _ => none) "f.json").map Timeline.history ≠
      some [Message.mk "user" "File sent: /x"] := by
  constructor
  · rfl
  · decide

/-- Claim C5 (amended): for every Timeline with no frozen segments, none of
whose message texts begins with `"File sent: "`, saving and then loading
the saved document reproduces the full history (same length, roles and
texts, in order) and sets `current_position` to `len(history) - 1`. -/
theorem save_load_roundtrip_no_frozen (t t0 : Timeline)
    (fs : String → Option String) (name description filename : String)
    (hfroz : t.frozen_segments = [])
    (hmark : ∀ m ∈ t.history, pyStartsWith m.text "File sent: " = false) :
    Timeline.load t0 (t.save name description) fs filename =
      some { t0 with
        history := t.history
        frozen_segments := []
        start_mode := "interactive"
        current_position := (t.history.length : Int) - 1
        loaded_filename := some filename } := by
  unfold Timeline.save Timeline.load
  rw [hfroz]
  simp only
  have hgen : ∀ l : List Message,
      (∀ m ∈ l, pyStartsWith m.text "File sent: " = false) →
      l.map (Timeline.reconstruct_message fs) = l := by
    intro l
    induction l with
    | nil => intro _; rfl
    | cons a l ih =>
      intro h
      have ha := reconstruct_message_of_not_marker fs a (h a (by simp))
      have hl := ih (fun m hm => h m (by simp [hm]))
      simp [ha, hl]
  rw [hgen t.history hmark]

/-- Claim C5 (witness): a concrete two-message Timeline with no frozen
segments round-trips through save/load, ending with the cursor at index 1. -/
theorem save_load_roundtrip_no_frozen_witness :
    ((Timeline.mk [Message.mk "user" "hello", Message.mk "model" "hi there"]
        1 [] "interactive" none).frozen_segments = [] ∧
     (∀ m ∈ (Timeline.mk [Message.mk "user" "hello", Message.mk "model" "hi there"]
        1 [] "interactive" none).history,
        pyStartsWith m.text "File sent: " = false)) ∧
    Timeline.load Timeline.init
        ((Timeline.mk [Message.mk "user" "hello", Message.mk "model" "hi there"]
          1 [] "interactive" none).save "n" "d") (fun _ => none) "f.json" =
      some (Timeline.mk [Message.mk "user" "hello", Message.mk "model" "hi there"]
        1 [] "interactive" (some "f.json")) := by
  refine ⟨⟨rfl, by decide⟩, ?_⟩
  have h := save_load_roundtrip_no_frozen
    (Timeline.mk [Message.mk "user" "hello", Message.mk "model" "hi there"]
      1 [] "interactive" none)
    Timeline.init (fun _ => none) "n" "d" "f.json" rfl (by decide)
  exact h.trans (by decide)

/- ### Claims C4 and C10: loading with frozen segments -/

/-- The reconstructed messages of one frozen segment: the inclusive slice
`initial_history[start..end]`.  Statement-side characterization of what
the load loop keeps. -/
def frozenSlice (fs : String → Option String) (ih : List Message) (s : Segment) :
    List Message :=
  ((ih.drop s.start).take (segLen s)).map (Timeline.reconstruct_message fs)

/-- The new history built by `Timeline.load` when frozen segments exist:
the concatenation of the segments' slices, everything else discarded. -/
def frozenHistory (fs : String → Option String) (ih : List Message) :
    List Segment → List Message
  | [] => []
  | s :: rest => frozenSlice fs ih s ++ frozenHistory fs ih rest

/-- Total number of messages covered by a segment list. -/
def totalLen : List Segment → Nat
  | [] => 0
  | s :: rest => segLen s + totalLen rest

/-- The remapped segments, starting at offset `acc`: each segment keeps its
width and is placed right after the previous one. -/
def remapAux (acc : Nat) : List Segment → List Segment
  | [] => []
  | s :: rest =>
      Segment.mk acc (acc + (s.«end» - s.start)) :: remapAux (acc + segLen s) rest

/-- The expected remapping of the persisted segments onto the new history. -/
def remapExpected (segs : List Segment) : List Segment := remapAux 0 segs

/-- The `(old index, new index)` pairs recorded for a run of indices
starting at new index `n`. -/
def pairsOf : List Nat → Nat → List (Nat × Nat)
  | [], _ => []
  | i :: rest, n => (i, n) :: pairsOf rest (n + 1)

/-- The `index_mapping` association list built by the load loops for a
segment list, most recent binding first (matching dict overwrite). -/
def segsPairs : List Segment → Nat → List (Nat × Nat)
  | [], _ => []
  | s :: rest, ni =>
      segsPairs rest (ni + segLen s) ++ (pairsOf (List.range' s.start (segLen s)) ni).reverse

theorem loadIndices_eq (fs : String → Option String) (ih : List Message) :
    ∀ (idxs : List Nat) (hist : List Message) (mapping : List (Nat × Nat)) (ni : Nat),
    (∀ i ∈ idxs, i < ih.length) →
    loadIndices fs ih idxs hist mapping ni =
      some (hist ++ idxs.map (fun i => Timeline.reconstruct_message fs (ih.getD i default)),
            (pairsOf idxs ni).reverse ++ mapping,
            ni + idxs.length) := by
  intro idxs
  induction idxs with
  | nil => intro hist mapping ni _; simp [loadIndices, pairsOf]
  | cons idx rest ih' =>
    intro hist mapping ni hbd
    have hidx : idx < ih.length := hbd idx (by simp)
    have hget : ih.get? idx = some (ih.getD idx default) := by
      simp [List.get?_eq_getElem?, List.getElem?_eq_getElem hidx,
        List.getD_eq_getElem?_getD]
    rw [loadIndices, hget]
    show loadIndices fs ih rest (hist ++ [Timeline.reconstruct_message fs (ih.getD idx default)])
        ((idx, ni) :: mapping) (ni + 1) = _
    rw [ih' _ _ _ (fun i hi => hbd i (by simp [hi]))]
    simp [pairsOf, List.append_assoc]
    omega

theorem map_getD_range' (fs : String → Option String) (ih : List Message) :
    ∀ (L s : Nat), s + L ≤ ih.length →
    (List.range' s L).map (fun i => Timeline.reconstruct_message fs (ih.getD i default)) =
      ((ih.drop s).take L).map (Timeline.reconstruct_message fs) := by
  intro L
  induction L with
  | zero => intro s _; simp
  | succ n ih' =>
    intro s h
    have hs : s < ih.length := by omega
    have hdrop : ih.drop s = ih[s] :: ih.drop (s + 1) := List.drop_eq_getElem_cons hs
    have hgetD : ih.getD s default = ih[s] := by
      simp [List.getD_eq_getElem?_getD, List.getElem?_eq_getElem hs]
    rw [List.range'_succ, hdrop]
    simp only [List.map_cons, List.take_succ_cons, hgetD]
    rw [ih' (s + 1) (by omega)]

theorem loadSegments_eq (fs : String → Option String) (ih : List Message) :
    ∀ (segs : List Segment) (hist : List Message) (mapping : List (Nat × Nat)) (ni : Nat),
    (∀ s ∈ segs, s.start ≤ s.«end») →
    (∀ s ∈ segs, s.«end» < ih.length) →
    loadSegments fs ih segs hist mapping ni =
      some (hist ++ frozenHistory fs ih segs,
            segsPairs segs ni ++ mapping,
            ni + totalLen segs) := by
  intro segs
  induction segs with
  | nil => intro hist mapping ni _ _; simp [loadSegments, frozenHistory, segsPairs, totalLen]
  | cons seg rest ih' =>
    intro hist mapping ni hwf hbd
    have hwf0 : seg.start ≤ seg.«end» := hwf seg (by simp)
    have hbd0 : seg.«end» < ih.length := hbd seg (by simp)
    have hrange : ∀ i ∈ List.range' seg.start (segLen seg), i < ih.length := by
      intro i hi
      rw [List.mem_range'_1] at hi
      have := hi.2
      simp only [segLen] at this
      omega
    rw [loadSegments, loadIndices_eq fs ih _ _ _ _ hrange]
    have hlen : (List.range' seg.start (segLen seg)).length = segLen seg := by
      simp
    have hslice : (List.range' seg.start (segLen seg)).map
        (fun i => Timeline.reconstruct_message fs (ih.getD i default)) =
        frozenSlice fs ih seg := by
      unfold frozenSlice
      apply map_getD_range'
      simp only [segLen]
      omega
    rw [hslice, hlen]
    show loadSegments fs ih rest (hist ++ frozenSlice fs ih seg)
        ((pairsOf (List.range' seg.start (segLen seg)) ni).reverse ++ mapping)
        (ni + segLen seg) = _
    rw [ih' _ _ _ (fun s hs => hwf s (by simp [hs])) (fun s hs => hbd s (by simp [hs]))]
    simp [frozenHistory, segsPairs, totalLen, List.append_assoc]
    omega

/- Lookup lemmas for the index mapping -/

theorem lookupNat_append (key : Nat) :
    ∀ (a b : List (Nat × Nat)),
    lookupNat key (a ++ b) =
      match lookupNat key a with
      | some v => some v
      | none => lookupNat key b := by
  intro a b
  induction a with
  | nil => simp [lookupNat]
  | cons p rest ih =>
    rw [List.cons_append, lookupNat, lookupNat]
    split
    · rfl
    · exact ih

theorem lookupNat_of_keys_ne (key : Nat) :
    ∀ (ps : List (Nat × Nat)), (∀ p ∈ ps, p.1 ≠ key) → lookupNat key ps = none := by
  intro ps
  induction ps with
  | nil => intro _; rfl
  | cons p rest ih =>
    intro h
    rw [lookupNat]
    have hp : p.1 ≠ key := h p (by simp)
    cases p with
    | mk k v =>
      simp only at hp
      rw [if_neg hp]
      exact ih (fun q hq => h q (by simp [hq]))

theorem pairsOf_map_fst : ∀ (idxs : List Nat) (n : Nat), (pairsOf idxs n).map Prod.fst = idxs := by
  intro idxs
  induction idxs with
  | nil => intro n; rfl
  | cons i rest ih => intro n; simp [pairsOf, ih]

theorem lookupNat_block_skip (key : Nat) (idxs : List Nat) (n : Nat) (m : List (Nat × Nat))
    (h : key ∉ idxs) :
    lookupNat key ((pairsOf idxs n).reverse ++ m) = lookupNat key m := by
  rw [lookupNat_append]
  have hnone : lookupNat key (pairsOf idxs n).reverse = none := by
    apply lookupNat_of_keys_ne
    intro p hp
    rw [List.mem_reverse] at hp
    intro hk
    apply h
    have : p.1 ∈ (pairsOf idxs n).map Prod.fst := List.mem_map_of_mem Prod.fst hp
    rw [pairsOf_map_fst] at this
    rw [hk] at this
    exact this
  rw [hnone]

theorem lookupNat_range'_block (key : Nat) :
    ∀ (L s n : Nat) (m : List (Nat × Nat)),
    s ≤ key → key < s + L →
    lookupNat key ((pairsOf (List.range' s L) n).reverse ++ m) = some (n + (key - s)) := by
  intro L
  induction L with
  | zero => intro s n m h1 h2; omega
  | succ L ih =>
    intro s n m h1 h2
    rw [List.range'_succ]
    rw [pairsOf]
    simp only [List.reverse_cons, List.append_assoc]
    by_cases hk : key = s
    · subst hk
      have hnot : key ∉ List.range' (key + 1) L := by
        intro hmem
        rw [List.mem_range'_1] at hmem
        omega
      rw [lookupNat_block_skip key _ _ _ hnot]
      simp [lookupNat]
    · have h1' : s + 1 ≤ key := by omega
      rw [ih (s + 1) (n + 1) _ h1' (by omega)]
      congr 1
      omega

theorem lookupNat_segsPairs_skip (key : Nat) :
    ∀ (segs : List Segment) (ni : Nat) (m : List (Nat × Nat)),
    (∀ s ∈ segs, key < s.start) →
    lookupNat key (segsPairs segs ni ++ m) = lookupNat key m := by
  intro segs
  induction segs with
  | nil => intro ni m _; simp [segsPairs]
  | cons s rest ih =>
    intro ni m h
    rw [segsPairs, List.append_assoc]
    rw [ih _ _ (fun q hq => h q (by simp [hq]))]
    apply lookupNat_block_skip
    intro hmem
    rw [List.mem_range'_1] at hmem
    have := h s (by simp)
    omega

theorem lookupNat_segsPairs_mem (key : Nat) :
    ∀ (segs : List Segment) (ni : Nat) (m : List (Nat × Nat)) (j : Nat) (seg : Segment),
    segs.get? j = some seg →
    (∀ s ∈ segs, s.start ≤ s.«end») →
    segs.Pairwise (fun a b => a.«end» < b.start) →
    seg.start ≤ key → key ≤ seg.«end» →
    lookupNat key (segsPairs segs ni ++ m) =
      some (ni + totalLen (segs.take j) + (key - seg.start)) := by
  intro segs
  induction segs with
  | nil => intro ni m j seg hj; simp at hj
  | cons s rest ih =>
    intro ni m j seg hj hwf hpw h1 h2
    cases j with
    | zero =>
      have hs : seg = s := by simpa using hj.symm
      subst hs
      rw [segsPairs, List.append_assoc]
      have hskip : ∀ q ∈ rest, key < q.start := by
        intro q hq
        have := (List.pairwise_cons.mp hpw).1 q hq
        omega
      rw [lookupNat_segsPairs_skip key rest _ _ hskip]
      have hwf0 : seg.start ≤ seg.«end» := hwf seg (by simp)
      rw [lookupNat_range'_block key (segLen seg) seg.start ni _ h1
        (by simp only [segLen]; omega)]
      simp [totalLen]
    | succ j' =>
      have hj' : rest.get? j' = some seg := by simpa using hj
      rw [segsPairs, List.append_assoc]
      rw [ih _ _ j' seg hj' (fun q hq => hwf q (by simp [hq]))
        (List.pairwise_cons.mp hpw).2 h1 h2]
      congr 1
      simp [totalLen]
      omega

theorem totalLen_append : ∀ (a b : List Segment), totalLen (a ++ b) = totalLen a + totalLen b := by
  intro a b
  induction a with
  | nil => simp [totalLen]
  | cons s rest ih => simp [totalLen, ih]; omega

theorem remapSegments_suffix :
    ∀ (sub pre : List Segment),
    (∀ s ∈ pre ++ sub, s.start ≤ s.«end») →
    (pre ++ sub).Pairwise (fun a b => a.«end» < b.start) →
    remapSegments (segsPairs (pre ++ sub) 0) sub = some (remapAux (totalLen pre) sub) := by
  intro sub
  induction sub with
  | nil => intro pre _ _; simp [remapSegments, remapAux]
  | cons s rest ih =>
    intro pre hwf hpw
    have hget : (pre ++ s :: rest).get? pre.length = some s := by
      rw [List.get?_append_right (Nat.le_refl _)]
      simp
    have hwf0 : s.start ≤ s.«end» := hwf s (by simp)
    have htake : (pre ++ s :: rest).take pre.length = pre := List.take_left pre _
    have hstart := lookupNat_segsPairs_mem s.start (pre ++ s :: rest) 0 [] pre.length s
      hget hwf hpw (Nat.le_refl _) hwf0
    have hend := lookupNat_segsPairs_mem s.«end» (pre ++ s :: rest) 0 [] pre.length s
      hget hwf hpw hwf0 (Nat.le_refl _)
    rw [htake, List.append_nil] at hstart hend
    have hrest : remapSegments (segsPairs (pre ++ s :: rest) 0) rest =
        some (remapAux (totalLen (pre ++ [s])) rest) := by
      have hassoc : pre ++ s :: rest = (pre ++ [s]) ++ rest := by simp
      rw [hassoc]
      exact ih (pre ++ [s]) (by rw [← hassoc]; exact hwf) (by rw [← hassoc]; exact hpw)
    have e1 : 0 + totalLen pre + (s.start - s.start) = totalLen pre := by omega
    have e3 : totalLen (pre ++ [s]) = totalLen pre + segLen s := by
      rw [totalLen_append]; simp [totalLen]
    rw [remapSegments, hstart, hend, hrest, e1, e3]
    simp [remapAux]

/-- The full behaviour of `Timeline.load` when the persisted metadata holds
at least one frozen segment (segments well-formed: `start ≤ end`,
pairwise disjoint and sorted by start, in bounds): only the messages
inside the segments are kept, the segments are remapped onto the new
history in order, and the cursor moves to the first remapped segment's
start. -/
theorem load_frozen_eq (t : Timeline) (data : SavedTimeline)
    (fs : String → Option String) (filename : String)
    (hne : data.metadata.frozenSegments ≠ [])
    (hwf : ∀ s ∈ data.metadata.frozenSegments, s.start ≤ s.«end»)
    (hsd : data.metadata.frozenSegments.Pairwise (fun a b => a.«end» < b.start))
    (hbd : ∀ s ∈ data.metadata.frozenSegments, s.«end» < data.history.length) :
    Timeline.load t data fs filename =
      some { t with
        history := frozenHistory fs data.history data.metadata.frozenSegments
        frozen_segments := remapExpected data.metadata.frozenSegments
        start_mode := data.metadata.startMode
        current_position :=
          (((remapExpected data.metadata.frozenSegments).headI.start : Int))
        loaded_filename := some filename } := by
  unfold Timeline.load
  cases hsegs : data.metadata.frozenSegments with
  | nil => exact absurd hsegs hne
  | cons seg rest =>
    rw [hsegs] at hwf hsd hbd
    simp only
    rw [loadSegments_eq fs data.history (seg :: rest) [] [] 0 hwf hbd]
    show (match remapSegments (segsPairs (seg :: rest) 0 ++ []) (seg :: rest) with
      | none => none
      | some newSegs => _) = _
    rw [List.append_nil]
    have hremap := remapSegments_suffix (seg :: rest) [] hwf hsd
    simp only [List.nil_append] at hremap
    rw [hremap]
    simp [remapExpected, remapAux, frozenHistory, totalLen]

/-- Claim C4: for every persisted timeline whose metadata contains at least
one frozen segment (segments in-bounds, disjoint, sorted by start, with
`start ≤ end`), `load` keeps exactly the messages inside the frozen
segments (reconstructed, in segment order), discards everything outside,
remaps each segment to its position in the new shorter history preserving
order, and sets `current_position` to the start of the first remapped
segment. -/
theorem load_frozen_segments_filter_remap (t : Timeline) (data : SavedTimeline)
    (fs : String → Option String) (filename : String)
    (hne : data.metadata.frozenSegments ≠ [])
    (hwf : ∀ s ∈ data.metadata.frozenSegments, s.start ≤ s.«end»)
    (hsd : data.metadata.frozenSegments.Pairwise (fun a b => a.«end» < b.start))
    (hbd : ∀ s ∈ data.metadata.frozenSegments, s.«end» < data.history.length) :
    Timeline.load t data fs filename =
      some { t with
        history := frozenHistory fs data.history data.metadata.frozenSegments
        frozen_segments := remapExpected data.metadata.frozenSegments
        start_mode := data.metadata.startMode
        current_position :=
          (((remapExpected data.metadata.frozenSegments).headI.start : Int))
        loaded_filename := some filename } :=
  load_frozen_eq t data fs filename hne hwf hsd hbd

/-- Claim C4 (witness): the spec's concrete round trip.  A Timeline with
five messages and the single frozen segment `{2,4}` is saved; reloading
the saved document yields exactly the 3 messages of indices 2–4, the
single remapped segment `{0,2}`, and `current_position = 0`. -/
theorem load_frozen_segments_filter_remap_witness :
    (((Timeline.mk [Message.mk "user" "m0", Message.mk "model" "m1",
          Message.mk "user" "m2", Message.mk "model" "m3", Message.mk "user" "m4"]
          4 [Segment.mk 2 4] "interactive" none).save "n" "d").metadata.frozenSegments ≠ [] ∧
     (∀ s ∈ ((Timeline.mk [Message.mk "user" "m0", Message.mk "model" "m1",
          Message.mk "user" "m2", Message.mk "model" "m3", Message.mk "user" "m4"]
          4 [Segment.mk 2 4] "interactive" none).save "n" "d").metadata.frozenSegments,
        s.start ≤ s.«end» ∧ s.«end» <
          ((Timeline.mk [Message.mk "user" "m0", Message.mk "model" "m1",
            Message.mk "user" "m2", Message.mk "model" "m3", Message.mk "user" "m4"]
            4 [Segment.mk 2 4] "interactive" none).save "n" "d").history.length)) ∧
    Timeline.load Timeline.init
        ((Timeline.mk [Message.mk "user" "m0", Message.mk "model" "m1",
          Message.mk "user" "m2", Message.mk "model" "m3", Message.mk "user" "m4"]
          4 [Segment.mk 2 4] "interactive" none).save "n" "d")
        (fun _ => none) "t.json" =
      some (Timeline.mk [Message.mk "user" "m2", Message.mk "model" "m3",
        Message.mk "user" "m4"] 0 [Segment.mk 0 2] "interactive" (some "t.json")) := by
  refine ⟨⟨by decide, by decide⟩, ?_⟩
  have h := load_frozen_segments_filter_remap Timeline.init
    ((Timeline.mk [Message.mk "user" "m0", Message.mk "model" "m1",
      Message.mk "user" "m2", Message.mk "model" "m3", Message.mk "user" "m4"]
      4 [Segment.mk 2 4] "interactive" none).save "n" "d")
    (fun _ => none) "t.json" (by decide) (by decide)
    (by simp [Timeline.save, List.pairwise_cons]) (by decide)
  exact h.trans (by decide)

/- Structural properties of the remapped segments (for claim C10) -/

theorem totalLen_pos : ∀ (segs : List Segment), segs ≠ [] →
    (∀ s ∈ segs, s.start ≤ s.«end») → 1 ≤ totalLen segs := by
  intro segs hne hwf
  cases segs with
  | nil => exact absurd rfl hne
  | cons s rest =>
    have := hwf s (by simp)
    simp only [totalLen, segLen]
    omega

theorem remapAux_chain' : ∀ (segs : List Segment) (acc : Nat),
    (∀ s ∈ segs, s.start ≤ s.«end») →
    List.Chain' (fun a b => b.start = a.«end» + 1) (remapAux acc segs) := by
  intro segs
  induction segs with
  | nil => intro acc _; simp [remapAux]
  | cons s rest ih =>
    intro acc hwf
    cases rest with
    | nil => simp [remapAux]
    | cons r rr =>
      have hs := hwf s (by simp)
      rw [remapAux, remapAux]
      rw [List.chain'_cons]
      constructor
      · simp only [segLen]
        omega
      · have := ih (acc + segLen s) (fun q hq => hwf q (by simp at hq; simp [hq]))
        rw [remapAux] at this
        exact this

theorem remapAux_getLast_end : ∀ (segs : List Segment) (acc : Nat), segs ≠ [] →
    (∀ s ∈ segs, s.start ≤ s.«end») →
    (remapAux acc segs).getLast?.map (fun s => s.«end») =
      some (acc + totalLen segs - 1) := by
  intro segs
  induction segs with
  | nil => intro acc h _; exact absurd rfl h
  | cons s rest ih =>
    intro acc _ hwf
    have hs := hwf s (by simp)
    cases rest with
    | nil =>
      simp only [remapAux, totalLen, List.getLast?_singleton, Option.map_some']
      congr 1
      simp only [segLen]
      omega
    | cons r rr =>
      rw [remapAux, remapAux, List.getLast?_cons_cons]
      have hr := ih (acc + segLen s) (by simp) (fun q hq => hwf q (by simp at hq; simp [hq]))
      rw [remapAux] at hr
      rw [hr]
      have hrest1 : 1 ≤ totalLen (r :: rr) :=
        totalLen_pos (r :: rr) (by simp) (fun q hq => hwf q (by simp at hq; simp [hq]))
      congr 1
      simp only [totalLen]
      omega

theorem frozenHistory_length (fs : String → Option String) (ih : List Message) :
    ∀ (segs : List Segment),
    (∀ s ∈ segs, s.start ≤ s.«end») → (∀ s ∈ segs, s.«end» < ih.length) →
    (frozenHistory fs ih segs).length = totalLen segs := by
  intro segs
  induction segs with
  | nil => intro _ _; rfl
  | cons s rest ihr =>
    intro hwf hbd
    have hs := hwf s (by simp)
    have hb := hbd s (by simp)
    rw [frozenHistory]
    rw [List.length_append]
    rw [ihr (fun q hq => hwf q (by simp [hq])) (fun q hq => hbd q (by simp [hq]))]
    simp only [frozenSlice, List.length_map, List.length_take, List.length_drop,
      totalLen, segLen]
    omega

/-- Claim C10: after a load with frozen segments (in-bounds, with
`start ≤ end`, disjoint, sorted by start), the remapped segments tile the
new history contiguously: the first starts at 0, each subsequent segment
starts at the previous segment's end + 1, and the last ends at
`len(history) - 1`; consequently `current_position = 0`, and an immediate
save derives `startMode = "frozen"`. -/
theorem load_frozen_segments_tiling (t : Timeline) (data : SavedTimeline)
    (fs : String → Option String) (filename name description : String)
    (hne : data.metadata.frozenSegments ≠ [])
    (hwf : ∀ s ∈ data.metadata.frozenSegments, s.start ≤ s.«end»)
    (hsd : data.metadata.frozenSegments.Pairwise (fun a b => a.«end» < b.start))
    (hbd : ∀ s ∈ data.metadata.frozenSegments, s.«end» < data.history.length) :
    ∃ t', Timeline.load t data fs filename = some t' ∧
      t'.frozen_segments ≠ [] ∧
      t'.frozen_segments.headI.start = 0 ∧
      List.Chain' (fun a b => b.start = a.«end» + 1) t'.frozen_segments ∧
      t'.frozen_segments.getLast?.map (fun s => s.«end») =
        some (t'.history.length - 1) ∧
      t'.current_position = 0 ∧
      (t'.save name description).metadata.startMode = "frozen" := by
  refine ⟨_, load_frozen_eq t data fs filename hne hwf hsd hbd, ?_, ?_, ?_, ?_, ?_, ?_⟩
  · cases hsegs : data.metadata.frozenSegments with
    | nil => exact absurd hsegs hne
    | cons seg rest => simp [remapExpected, remapAux]
  · cases hsegs : data.metadata.frozenSegments with
    | nil => exact absurd hsegs hne
    | cons seg rest => simp [remapExpected, remapAux]
  · exact remapAux_chain' data.metadata.frozenSegments 0 hwf
  · unfold remapExpected
    rw [remapAux_getLast_end data.metadata.frozenSegments 0 hne hwf]
    rw [frozenHistory_length fs data.history data.metadata.frozenSegments hwf hbd]
    simp
  · cases hsegs : data.metadata.frozenSegments with
    | nil => exact absurd hsegs hne
    | cons seg rest => simp [remapExpected, remapAux]
  · cases hsegs : data.metadata.frozenSegments with
    | nil => exact absurd hsegs hne
    | cons seg rest => simp [Timeline.save, remapExpected, remapAux]

/-- Claim C10 (witness): a persisted timeline with six messages and two
frozen segments `{1,2}` and `{4,5}`; after loading, the remapped segments
tile the four-message history, the cursor is at 0, and an immediate save
derives `startMode = "frozen"`. -/
theorem load_frozen_segments_tiling_witness :
    ((SavedTimeline.mk [Message.mk "user" "a", Message.mk "model" "b",
        Message.mk "user" "c", Message.mk "model" "d", Message.mk "user" "e",
        Message.mk "model" "f"]
        (TimelineMetadata.mk [Segment.mk 1 2, Segment.mk 4 5] "interactive" "n" "d")
      ).metadata.frozenSegments ≠ [] ∧
     (∀ s ∈ (SavedTimeline.mk [Message.mk "user" "a", Message.mk "model" "b",
        Message.mk "user" "c", Message.mk "model" "d", Message.mk "user" "e",
        Message.mk "model" "f"]
        (TimelineMetadata.mk [Segment.mk 1 2, Segment.mk 4 5] "interactive" "n" "d")
      ).metadata.frozenSegments, s.start ≤ s.«end» ∧ s.«end» < 6)) ∧
    (∃ t', Timeline.load Timeline.init
        (SavedTimeline.mk [Message.mk "user" "a", Message.mk "model" "b",
          Message.mk "user" "c", Message.mk "model" "d", Message.mk "user" "e",
          Message.mk "model" "f"]
          (TimelineMetadata.mk [Segment.mk 1 2, Segment.mk 4 5] "interactive" "n" "d"))
        (fun _ => none) "t.json" = some t' ∧
      t'.frozen_segments ≠ [] ∧
      t'.frozen_segments.headI.start = 0 ∧
      List.Chain' (fun a b => b.start = a.«end» + 1) t'.frozen_segments ∧
      t'.frozen_segments.getLast?.map (fun s => s.«end») =
        some (t'.history.length - 1) ∧
      t'.current_position = 0 ∧
      (t'.save "n2" "d2").metadata.startMode = "frozen") := by
  refine ⟨⟨by decide, by decide⟩, ?_⟩
  exact load_frozen_segments_tiling Timeline.init
    (SavedTimeline.mk [Message.mk "user" "a", Message.mk "model" "b",
      Message.mk "user" "c", Message.mk "model" "d", Message.mk "user" "e",
      Message.mk "model" "f"]
      (TimelineMetadata.mk [Segment.mk 1 2, Segment.mk 4 5] "interactive" "n" "d"))
    (fun _ => none) "t.json" "n2" "d2" (by decide) (by decide)
    (by simp [List.pairwise_cons]) (by decide)

/- ### The CommandProcessor message pipeline (claim C1) -/

/-- One element of a conversation message's `parts` list.  `text` is
`none` when the Python dict lacks a `text` key. -/
structure ConvPart where
  text : Option String
deriving DecidableEq, Repr, Inhabited

/-- A provider-agnostic conversation message.  `parts` mirrors the
`parts: [{text}]` shape built by the pipeline; `content` models an
optional `content` key (used by the provider conversions). -/
structure ConvMessage where
  role : String
  parts : List ConvPart
  content : Option String
deriving DecidableEq, Repr, Inhabited

/-- Embeds `model.ModelRequestException`: the provider error kind, carrying the
message and the originating provider name (`model_type`). -/
structure ModelRequestException where
  message : String
  model_type : String
deriving DecidableEq, Repr, Inhabited

/-- Embeds `CommandProcessor.construct_message(message, role, file_path)`: `none`
for a whitespace-only message, otherwise the `{role, parts}` dict; a
`file_path` appends the file's content (or an error note) as an extra
part. -/
def construct_message (fs : String → Option String) (message : String)
    (role : String) (file_path : Option String) : Option ConvMessage :=
  if pyStrip message = "" then none
  else
    let parts : List ConvPart := [ConvPart.mk (some message)]
    let parts :=
      match file_path with
      | none => parts
      | some fp =>
        match fs fp with
        | some file_content =>
            if pyStrip file_content ≠ "" then
              parts ++ [ConvPart.mk (some ("\n\nFile Content:\n" ++ file_content))]
            else
              parts ++ [ConvPart.mk (some "File is empty.")]
        | none =>
            parts ++ [ConvPart.mk
              (some ("Error: File not found at " ++ apos ++ fp ++ apos))]
    some (ConvMessage.mk role parts none)

/-- Embeds `CommandProcessor.process_file_input(file_path, conversation)`: reads
the file, and when it exists with non-blank content appends the combined
`File sent:`/content message to the conversation and to the Timeline,
returning success.  (Note: `_process_message` calls this method without
its required `conversation` argument, so this code path is unreachable
from the pipeline — see `processMessage`.) -/
def process_file_input (fs : String → Option String) (file_path : String)
    (conversation : List ConvMessage) (timeline : Timeline) :
    Bool × List ConvMessage × Timeline :=
  match fs file_path with
  | some file_content =>
    if pyStrip file_content ≠ "" then
      let message := "File sent: " ++ file_path ++ "\n\nFile Content:\n" ++ file_content
      let conversation :=
        match construct_message fs message "user" none with
        | some m => conversation ++ [m]
        | none => conversation
      (true, conversation, timeline.add_message "user" message)
    else
      (false, conversation, timeline)
  | none => (false, conversation, timeline)

/-- The outbound conversation array `_process_message` builds from the
Timeline: every message of the full history with non-blank text,
independent of `current_position`. -/
def outboundConversation (t : Timeline) : List ConvMessage :=
  t.history.filterMap (fun msg =>
    if pyStrip msg.text = "" then none
    else some (ConvMessage.mk msg.role [ConvPart.mk (some msg.text)] none))

/-- Embeds `CommandProcessor._process_message(user_input)`.  The provider is the
oracle `gen` (`Except.error` models a raised `ModelRequestException`).
Returns `(new timeline, model_response, error_message)`; the outer `none`
models an uncaught Python exception.  In the source, the `file ` branch
invokes `self.process_file_input(file_path)` without the required
`conversation` argument, which raises `TypeError`; that branch is
therefore modelled as `none`.  On a provider error, the just-added user
message is popped only when the last history entry has role `user`, and
`current_position` is left unchanged (it is not rolled back). -/
def processMessage (fs : String → Option String)
    (gen : List ConvMessage → Except ModelRequestException String)
    (timeline : Timeline) (user_input : String) :
    Option (Timeline × Option String × Option String) :=
  let conversation := outboundConversation timeline
  if pyStartsWith user_input "file " then
    none
  else
    match construct_message fs user_input "user" none with
    | none => some (timeline, none, some "Error: Empty message not processed.")
    | some user_message =>
      let conversation := conversation ++ [user_message]
      let timeline := timeline.add_message "user" user_input
      match gen conversation with
      | Except.ok model_response =>
          some (timeline.add_message "model" model_response, some model_response, none)
      | Except.error e =>
          let error_message :=
            "Error with " ++ e.model_type ++ " model: " ++ e.message
          match timeline.history.getLast? with
          | none => none
          | some last =>
              let timeline :=
                if last.role = "user" then
                  { timeline with history := timeline.history.dropLast }
                else timeline
              some (timeline, none, some error_message)

/-- Embeds `CommandProcessor.process_single_message(user_input)`: runs the
pipeline and returns the model response when it is non-empty, otherwise
the error message. -/
def process_single_message (fs : String → Option String)
    (gen : List ConvMessage → Except ModelRequestException String)
    (timeline : Timeline) (user_input : String) :
    Option (Timeline × Option String) :=
  (processMessage fs gen timeline user_input).map (fun r =>
    (r.1, match r.2.1 with
          | some resp => if resp = "" then r.2.2 else some resp
          | none => r.2.2))

/-- Claim C1 (counterexample): a Timeline `[user "a", model "b"]` with the
cursor moved back to index 0.  The pipeline inserts the new user message
at index 1 (mid-history); when the provider raises, the rollback guard
sees the unrelated `model "b"` entry at the tail and pops nothing, so the
history after the failed call has 3 entries instead of the original 2. -/
theorem processMessage_rollback_counterexample :
    (processMessage (fun _ => none)
        (fun _ => Except.error (ModelRequestException.mk "boom" "anthropic"))
        (Timeline.mk [Message.mk "user" "a", Message.mk "model" "b"]
          0 [] "interactive" none) "c").map
      (fun r => r.1.history) =
      some [Message.mk "user" "a", Message.mk "user" "c", Message.mk "model" "b"] ∧
    (Timeline.mk [Message.mk "user" "a", Message.mk "model" "b"]
      0 [] "interactive" none).history.length = 2 := by
  constructor
  · decide
  · rfl

/-- Claim C1 (amended): when the cursor is at the tail before the call
(formally `len(history) ≤ current_position + 1`, which includes the empty
history and the ordinary `current_position = len - 1` state), and the
input is non-blank and not a `file ` directive, a provider failure makes
`_process_message` return a reported error instead of raising, and the
history is restored to exactly its previous length and content; the
cursor, however, is left at `current_position + 1` (it is not rolled
back), so the Timeline is not entirely as it was. -/
theorem processMessage_provider_failure_rollback (fs : String → Option String)
    (gen : List ConvMessage → Except ModelRequestException String)
    (t : Timeline) (user_input : String) (e : ModelRequestException)
    (hfile : pyStartsWith user_input "file " = false)
    (hblank : pyStrip user_input ≠ "")
    (htail : (t.history.length : Int) ≤ t.current_position + 1)
    (hgen : gen (outboundConversation t ++
        [ConvMessage.mk "user" [ConvPart.mk (some user_input)] none]) =
      Except.error e) :
    processMessage fs gen t user_input =
      some ({ t with current_position := t.current_position + 1 }, none,
        some ("Error with " ++ e.model_type ++ " model: " ++ e.message)) := by
  unfold processMessage
  rw [hfile]
  simp only [Bool.false_eq_true, if_false]
  unfold construct_message
  rw [if_neg hblank]
  simp only
  have hins : pyInsert t.history (t.current_position + 1)
      (Message.mk "user" user_input) = t.history ++ [Message.mk "user" user_input] := by
    unfold pyInsert
    by_cases hneg : t.current_position + 1 < 0
    · exfalso
      have : (0 : Int) ≤ t.history.length := by positivity
      omega
    · simp only [hneg, if_false]
      apply listInsertIdx_of_length_le
      omega
  show (match gen (outboundConversation t ++
      [ConvMessage.mk "user" [ConvPart.mk (some user_input)] none]) with
    | Except.ok model_response => _
    | Except.error e => _) = _
  rw [hgen]
  simp only [Timeline.add_message, hins]
  rw [List.getLast?_concat]
  simp [List.dropLast_concat]

/-- Claim C1 (witness): on a Timeline `[user "a", model "b"]` with the
cursor at the tail, a provider failure yields the reported error, the
history is restored, and the cursor ends at 2. -/
theorem processMessage_provider_failure_rollback_witness :
    (pyStartsWith "c" "file " = false ∧ pyStrip "c" ≠ "" ∧
     (((Timeline.mk [Message.mk "user" "a", Message.mk "model" "b"]
        1 [] "interactive" none).history.length : Int)) ≤
       (Timeline.mk [Message.mk "user" "a", Message.mk "model" "b"]
        1 [] "interactive" none).current_position + 1) ∧
    processMessage (fun _ => none)
        (fun _ => Except.error (ModelRequestException.mk "boom" "anthropic"))
        (Timeline.mk [Message.mk "user" "a", Message.mk "model" "b"]
          1 [] "interactive" none) "c" =
      some (Timeline.mk [Message.mk "user" "a", Message.mk "model" "b"]
          2 [] "interactive" none, none,
        some "Error with anthropic model: boom") := by
  refine ⟨⟨by decide, by decide, by decide⟩, ?_⟩
  have h := processMessage_provider_failure_rollback (fun _ => none)
    (fun _ => Except.error (ModelRequestException.mk "boom" "anthropic"))
    (Timeline.mk [Message.mk "user" "a", Message.mk "model" "b"]
      1 [] "interactive" none) "c" (ModelRequestException.mk "boom" "anthropic")
    (by decide) (by decide) (by decide) rfl
  exact h.trans (by decide)

/- ### The model providers (claims C7 and C8) -/

/-- One message of the wire format built by the Groq conversion:
`{"role": ..., "content": ...}`. -/
structure GroqMessage where
  role : String
  content : String
deriving DecidableEq, Repr, Inhabited

/-- Embeds `' '.join(part['text'] for part in parts if 'text' in part)`. -/
def joinPartTexts (parts : List ConvPart) : String :=
  String.intercalate " " (parts.filterMap (fun p => p.text))

/-- The per-message conversion loop of
`GroqModel._convert_conversation_format`: renames `model` to
`assistant`, takes `content` if the key is present (else joins the
parts), and drops messages whose content is empty. -/
def groqConvertList : List ConvMessage → List GroqMessage
  | [] => []
  | m :: rest =>
    let role := if m.role = "model" then "assistant" else m.role
    let content :=
      match m.content with
      | some c => c
      | none => joinPartTexts m.parts
    if content ≠ "" then
      GroqMessage.mk role content :: groqConvertList rest
    else
      groqConvertList rest

/-- Embeds `GroqModel._convert_conversation_format(conversation)`: converts every
message, then prepends the default system message
`"You are a helpful assistant."` only when no converted message has the
`system` role. -/
def convert_conversation_format (conversation : List ConvMessage) : List GroqMessage :=
  let converted := groqConvertList conversation
  if converted.any (fun msg => msg.role = "system") then converted
  else GroqMessage.mk "system" "You are a helpful assistant." :: converted

/-- Claim C7 (counterexample): a conversation whose system message is not
first (`[user "hi", system "s"]`).  The conversion keeps the system
message inline at position 1, so the result's first message is not a
system message. -/
theorem groq_system_message_counterexample :
    convert_conversation_format
        [ConvMessage.mk "user" [ConvPart.mk (some "hi")] none,
         ConvMessage.mk "system" [ConvPart.mk (some "s")] none] =
      [GroqMessage.mk "user" "hi", GroqMessage.mk "system" "s"] ∧
    (convert_conversation_format
        [ConvMessage.mk "user" [ConvPart.mk (some "hi")] none,
         ConvMessage.mk "system" [ConvPart.mk (some "s")] none]).head?.map
      (fun m => m.role) ≠ some "system" := by
  constructor
  · rfl
  · decide

/-- The content the Groq conversion computes for one message. -/
def groqContent (m : ConvMessage) : String :=
  match m.content with
  | some c => c
  | none => joinPartTexts m.parts

/-- A converted message's role equals the source role with `model`
renamed; in particular no `system`-role output arises from a
non-`system` input. -/
theorem groqConvertList_no_system :
    ∀ (conversation : List ConvMessage),
    (∀ m ∈ conversation, m.role ≠ "system") →
    ∀ g ∈ groqConvertList conversation, g.role ≠ "system" := by
  intro conversation
  induction conversation with
  | nil => intro _ g hg; simp [groqConvertList] at hg
  | cons m rest ih =>
    intro h g hg
    rw [groqConvertList] at hg
    by_cases hc : groqContent m ≠ ""
    · rw [if_pos (by simpa [groqContent] using hc)] at hg
      rcases List.mem_cons.mp hg with hg | hg
      · subst hg
        simp only
        have hm := h m (by simp)
        split
        · simp
        · exact hm
      · exact ih (fun q hq => h q (by simp [hq])) g hg
    · rw [if_neg (by simpa [groqContent] using hc)] at hg
      exact ih (fun q hq => h q (by simp [hq])) g hg

/-- Claim C7 (amended): the Groq conversion keeps existing system messages
inline at their original relative positions and prepends the default
system message only when none survives conversion.  Consequently, for
every conversation in which no message after the first has the `system`
role, and whose first message, if it is a system message, has non-empty
content, the result contains exactly one system message and it is at
position 0. -/
theorem groq_system_message_position (conversation : List ConvMessage)
    (htail : ∀ m ∈ conversation.drop 1, m.role ≠ "system")
    (hhead : ∀ m ∈ conversation.take 1, m.role = "system" → groqContent m ≠ "") :
    (convert_conversation_format conversation).countP
        (fun m => m.role = "system") = 1 ∧
    (convert_conversation_format conversation).head?.map (fun m => m.role) =
      some "system" := by
  unfold convert_conversation_format
  cases conversation with
  | nil =>
    simp [groqConvertList]
  | cons m rest =>
    have hrest : ∀ g ∈ groqConvertList rest, g.role ≠ "system" :=
      groqConvertList_no_system rest (by simpa using htail)
    by_cases hm : m.role = "system"
    · have hc : groqContent m ≠ "" := hhead m (by simp) hm
      have hconv : groqConvertList (m :: rest) =
          GroqMessage.mk "system" (groqContent m) :: groqConvertList rest := by
        rw [groqConvertList]
        rw [if_pos (by simpa [groqContent] using hc)]
        simp [hm, groqContent]
      rw [hconv]
      have hany : (GroqMessage.mk "system" (groqContent m) ::
          groqConvertList rest).any (fun msg => msg.role = "system") = true := by
        simp
      rw [if_pos hany]
      constructor
      · rw [List.countP_cons]
        simp only [decide_eq_true_eq]
        have : (groqConvertList rest).countP (fun m => decide (m.role = "system")) = 0 := by
          rw [List.countP_eq_zero]
          intro g hg
          simpa using hrest g hg
        simp [this]
      · simp
    · have hall : ∀ g ∈ groqConvertList (m :: rest), g.role ≠ "system" := by
        apply groqConvertList_no_system
        intro q hq
        rcases List.mem_cons.mp hq with hq | hq
        · subst hq; exact hm
        · exact htail q (by simpa using hq)
      have hany : (groqConvertList (m :: rest)).any
          (fun msg => msg.role = "system") = false := by
        rw [List.any_eq_false]
        intro g hg
        simpa using hall g hg
      rw [if_neg (by simp [hany])]
      constructor
      · rw [List.countP_cons]
        simp only [decide_eq_true_eq]
        have : (groqConvertList (m :: rest)).countP
            (fun m => decide (m.role = "system")) = 0 := by
          rw [List.countP_eq_zero]
          intro g hg
          simpa using hall g hg
        simp [this]
      · simp

/-- Claim C7 (witness): a conversation with a leading system message and a
user message converts to a list with exactly one system message, at
position 0. -/
theorem groq_system_message_position_witness :
    ((∀ m ∈ ([ConvMessage.mk "system" [ConvPart.mk (some "sys")] none,
        ConvMessage.mk "user" [ConvPart.mk (some "hi")] none] : List ConvMessage).drop 1,
        m.role ≠ "system") ∧
     (∀ m ∈ ([ConvMessage.mk "system" [ConvPart.mk (some "sys")] none,
        ConvMessage.mk "user" [ConvPart.mk (some "hi")] none] : List ConvMessage).take 1,
        m.role = "system" → groqContent m ≠ "")) ∧
    ((convert_conversation_format
        [ConvMessage.mk "system" [ConvPart.mk (some "sys")] none,
         ConvMessage.mk "user" [ConvPart.mk (some "hi")] none]).countP
        (fun m => m.role = "system") = 1 ∧
     (convert_conversation_format
        [ConvMessage.mk "system" [ConvPart.mk (some "sys")] none,
         ConvMessage.mk "user" [ConvPart.mk (some "hi")] none]).head?.map
        (fun m => m.role) = some "system") :=
  ⟨⟨by decide, by decide⟩,
   groq_system_message_position
     [ConvMessage.mk "system" [ConvPart.mk (some "sys")] none,
      ConvMessage.mk "user" [ConvPart.mk (some "hi")] none]
     (by decide) (by decide)⟩

/-- The HTTP response the Anthropic provider receives from its POST
boundary: the status code, the parsed `content` block texts (`none`
models a JSON body without a `content` key), and the raw body text. -/
structure AnthropicHttpResponse where
  status : Nat
  contentTexts : Option (List String)
  text : String
deriving DecidableEq, Repr, Inhabited

/-- Embeds `AnthropicModel.generate_content`, from the POST boundary on (lines
149–158 of `model.py`): for a 200 response the first content block's
text is returned, and any non-200 status yields the string
`"Error: {status}, {body}"` as an ordinary return value.  The result type
is `Except ModelRequestException String` to make explicit that the
function never raises `ModelRequestException` — every path returns
`Except.ok`. -/
def anthropic_generate_content (resp : AnthropicHttpResponse) :
    Except ModelRequestException String :=
  if resp.status = 200 then
    match resp.contentTexts with
    | some (t :: _) => Except.ok t
    | _ => Except.ok "Error: Unexpected response structure"
  else
    Except.ok ("Error: " ++ toString resp.status ++ ", " ++ resp.text)

/-- Embeds `GroqModel.generate_content`: the whole body is wrapped in
`try/except Exception`, so any failure of the SDK call (modelled as
`Except.error` with the exception text) is returned as the ordinary
string `"Error generating content: {e}"`; `ModelRequestException` is
never raised. -/
def groq_generate_content (callResult : Except String String) :
    Except ModelRequestException String :=
  match callResult with
  | Except.ok content => Except.ok content
  | Except.error e => Except.ok ("Error generating content: " ++ e)

/-- Claim C8 (code bug, evaluated at the failing inputs): an HTTP 500 from
the Anthropic API and an SDK exception in the Groq provider both come
back to the caller as ordinary reply text (`Except.ok`), not as a raised
`ModelRequestException`; the provider failure is indistinguishable from a
successful reply. -/
theorem generate_content_returns_error_text :
    anthropic_generate_content (AnthropicHttpResponse.mk 500 none "boom") =
      Except.ok "Error: 500, boom" ∧
    groq_generate_content (Except.error "timeout") =
      Except.ok "Error generating content: timeout" ∧
    (∀ resp : AnthropicHttpResponse,
      ∃ s, anthropic_generate_content resp = Except.ok s) ∧
    (∀ r : Except String String, ∃ s, groq_generate_content r = Except.ok s) := by
  refine ⟨rfl, rfl, ?_, ?_⟩
  · intro resp
    unfold anthropic_generate_content
    split
    · split
      · exact ⟨_, rfl⟩
      · exact ⟨_, rfl⟩
    · exact ⟨_, rfl⟩
  · intro r
    cases r with
    | ok c => exact ⟨c, rfl⟩
    | error e => exact ⟨_, rfl⟩

/- ### The dialog managers (claims C6 and C9) -/

/-- A Processor: the pairing of one Timeline with one model provider
(`CommandProcessor(timeline, model)`).  `pid` models Python object
identity: each construction allocates a fresh id from the owning
router's counter, so two distinct constructions are distinguishable. -/
structure Processor where
  pid : Nat
  timeline : Timeline
deriving DecidableEq, Repr, Inhabited

/-- The error kinds raised by the dialog managers
(`FileNotFoundError`, `ModelConfigurationError`, `AgentNotPreparedError`,
`InvalidAgentError`). -/
inductive DialogError where
  | fileNotFound (msg : String)
  | modelConfiguration (msg : String)
  | agentNotPrepared (msg : String)
  | invalidAgent (msg : String)
deriving DecidableEq, Repr

/-- First-match lookup in a router cache, i.e. Python dict access keyed by
conversation identity. -/
def lookupKey {κ : Type} [DecidableEq κ] (key : κ) :
    List (κ × Processor) → Option Processor
  | [] => none
  | (k, v) :: rest => if k = key then some v else lookupKey key rest

/-- Replace the value stored under `key` (models the in-place mutation of
a cached processor's timeline). -/
def updateKey {κ : Type} [DecidableEq κ] (key : κ) (v : Processor) :
    List (κ × Processor) → List (κ × Processor)
  | [] => []
  | (k, w) :: rest =>
      if k = key then (k, v) :: rest else (k, w) :: updateKey key v rest

/-- Embeds `BasicDialogManager` state: the per-filename processor cache, the
dialog save path, the active dialog and the lazily selected model name.
`nextPid` is the processor-identity allocator. -/
structure BasicDialogManager where
  dialogs : List (String × Processor)
  dialog_save_path : String
  active_dialog : Option String
  model_name : Option String
  nextPid : Nat
deriving DecidableEq, Repr, Inhabited

/-- Embeds `BasicDialogManager.load_dialog(filename)`: returns the cached
processor for `filename` if present; otherwise selects a model if none
is chosen yet (`selectModel` is the interactive boundary), checks that
the dialog file exists (raising `FileNotFoundError` otherwise), loads the
Timeline from it (`loadT` abstracts `Timeline(); timeline.load(path)`),
and caches a new processor.  Either way the dialog becomes active.
`ModelManager.initialize_model` and `os.path.abspath` are boundaries not
affecting the cache behaviour. -/
def BasicDialogManager.load_dialog (fsExists : String → Bool)
    (loadT : String → Timeline) (selectModel : String)
    (m : BasicDialogManager) (filename : String) :
    BasicDialogManager × Except DialogError Processor :=
  match lookupKey filename m.dialogs with
  | some p => ({ m with active_dialog := some filename }, Except.ok p)
  | none =>
    let m1 :=
      match m.model_name with
      | none => { m with model_name := some selectModel }
      | some _ => m
    let full_path := m.dialog_save_path ++ "/" ++ filename
    if fsExists full_path then
      let processor := Processor.mk m1.nextPid (loadT full_path)
      ({ m1 with
          dialogs := m1.dialogs ++ [(filename, processor)]
          nextPid := m1.nextPid + 1
          active_dialog := some filename }, Except.ok processor)
    else
      (m1, Except.error (DialogError.fileNotFound
        ("Dialog file not found: " ++ full_path)))

/-- An `Agent`: an identity plus the path of its initial content file,
used to seed a Timeline on first preparation.  Agent identity is
abstracted by the structure's decidable equality. -/
structure Agent where
  id : String
  name : String
  content : String
deriving DecidableEq, Repr, Inhabited

/-- Embeds `AgentDialogManager` state: the per-Agent processor cache, the active
agent and the lazily selected (shared) model name; `nextPid` models
object identity as in `BasicDialogManager`. -/
structure AgentDialogManager where
  processors : List (Agent × Processor)
  active_agent : Option Agent
  model_name : Option String
  nextPid : Nat
deriving DecidableEq, Repr, Inhabited

/-- Embeds `AgentDialogManager.prepare_agent(agent)`: returns the cached
processor when the agent is already prepared; otherwise selects the
shared model if `model_name` is falsy (a failing selection raises
`ModelConfigurationError`), seeds a Timeline from the agent's content
(`loadT`) and caches a new processor.  The agent becomes active.
`register_with_dialog_manager` and the model initialization are
boundaries not affecting the cache. -/
def AgentDialogManager.prepare_agent (selectModel : Except String String)
    (loadT : String → Timeline) (m : AgentDialogManager) (agent : Agent) :
    AgentDialogManager × Except DialogError Processor :=
  match lookupKey agent m.processors with
  | some p => ({ m with active_agent := some agent }, Except.ok p)
  | none =>
    if m.model_name.getD "" = "" then
      match selectModel with
      | Except.error _ =>
          (m, Except.error (DialogError.modelConfiguration
            "Failed to select or configure the model."))
      | Except.ok mn =>
          let m1 := { m with model_name := some mn }
          let processor := Processor.mk m1.nextPid (loadT agent.content)
          ({ m1 with
              processors := m1.processors ++ [(agent, processor)]
              nextPid := m1.nextPid + 1
              active_agent := some agent }, Except.ok processor)
    else
      let processor := Processor.mk m.nextPid (loadT agent.content)
      ({ m with
          processors := m.processors ++ [(agent, processor)]
          nextPid := m.nextPid + 1
          active_agent := some agent }, Except.ok processor)

/-- Embeds `AgentDialogManager.message(agent, user_input)`: raises
`AgentNotPreparedError` (leaving the state untouched) when the agent has
no cached processor; otherwise sets the agent active and runs the cached
processor's pipeline, the in-place Timeline mutation reflected in the
cache.  The `isinstance` guard cannot fail in this typed embedding.  The
outer `none` models an uncaught exception from the pipeline. -/
def AgentDialogManager.message (fs : String → Option String)
    (gen : List ConvMessage → Except ModelRequestException String)
    (m : AgentDialogManager) (agent : Agent) (user_input : String) :
    Option (AgentDialogManager × Except DialogError (Option String)) :=
  match lookupKey agent m.processors with
  | none =>
      some (m, Except.error (DialogError.agentNotPrepared
        "The provided agent is not prepared"))
  | some processor =>
      let m1 := { m with active_agent := some agent }
      match process_single_message fs gen processor.timeline user_input with
      | none => none
      | some (tl, result) =>
          some ({ m1 with
            processors := updateKey agent (Processor.mk processor.pid tl) m1.processors },
            Except.ok result)

theorem lookupKey_append_self {κ : Type} [DecidableEq κ] (k : κ) (v : Processor) :
    ∀ (l : List (κ × Processor)), lookupKey k l = none →
    lookupKey k (l ++ [(k, v)]) = some v := by
  intro l
  induction l with
  | nil => intro _; simp [lookupKey]
  | cons p rest ih =>
    intro h
    cases p with
    | mk k' w =>
      rw [lookupKey] at h
      by_cases hk : k' = k
      · rw [if_pos hk] at h; exact absurd h (by simp)
      · rw [if_neg hk] at h
        rw [List.cons_append, lookupKey, if_neg hk]
        exact ih h

/-- A cache hit: `load_dialog` only sets the active dialog and returns the
cached processor. -/
theorem load_dialog_cached (fsE : String → Bool) (loadT : String → Timeline)
    (sel : String) (m : BasicDialogManager) (filename : String) (p : Processor)
    (h : lookupKey filename m.dialogs = some p) :
    BasicDialogManager.load_dialog fsE loadT sel m filename =
      ({ m with active_dialog := some filename }, Except.ok p) := by
  unfold BasicDialogManager.load_dialog
  rw [h]

/-- A cache hit: `prepare_agent` only sets the active agent and returns the
cached processor. -/
theorem prepare_agent_cached (selA : Except String String)
    (loadTA : String → Timeline) (m : AgentDialogManager) (agent : Agent)
    (q : Processor) (h : lookupKey agent m.processors = some q) :
    AgentDialogManager.prepare_agent selA loadTA m agent =
      ({ m with active_agent := some agent }, Except.ok q) := by
  unfold AgentDialogManager.prepare_agent
  rw [h]

/-- After a successful `load_dialog`, the returned processor is cached
under the filename and the cache grew by at most one entry. -/
theorem load_dialog_spec (fsE : String → Bool) (loadT : String → Timeline)
    (sel : String) (m : BasicDialogManager) (filename : String) (p : Processor)
    (hb : (BasicDialogManager.load_dialog fsE loadT sel m filename).2 = Except.ok p) :
    lookupKey filename
        (BasicDialogManager.load_dialog fsE loadT sel m filename).1.dialogs = some p ∧
    (BasicDialogManager.load_dialog fsE loadT sel m filename).1.dialogs.length ≤
      m.dialogs.length + 1 ∧
    (BasicDialogManager.load_dialog fsE loadT sel m filename).1.nextPid ≤
      m.nextPid + 1 := by
  cases hcache : lookupKey filename m.dialogs with
  | some p0 =>
    rw [load_dialog_cached fsE loadT sel m filename p0 hcache] at hb ⊢
    have hp : p0 = p := by simpa using hb
    subst hp
    exact ⟨hcache, by simp, by simp⟩
  | none =>
    cases hmn : m.model_name with
    | none =>
      cases hex : fsE (m.dialog_save_path ++ "/" ++ filename) with
      | false =>
        exfalso
        unfold BasicDialogManager.load_dialog at hb
        rw [hcache, hmn] at hb
        simp [hex] at hb
      | true =>
        have hfst : BasicDialogManager.load_dialog fsE loadT sel m filename =
            ({ m with
                model_name := some sel
                dialogs := m.dialogs ++ [(filename, Processor.mk m.nextPid
                  (loadT (m.dialog_save_path ++ "/" ++ filename)))]
                nextPid := m.nextPid + 1
                active_dialog := some filename },
             Except.ok (Processor.mk m.nextPid
               (loadT (m.dialog_save_path ++ "/" ++ filename)))) := by
          unfold BasicDialogManager.load_dialog
          rw [hcache, hmn]
          simp [hex]
        rw [hfst] at hb ⊢
        have hp : Processor.mk m.nextPid
            (loadT (m.dialog_save_path ++ "/" ++ filename)) = p := by simpa using hb
        refine ⟨?_, by simp, by simp⟩
        show lookupKey filename (m.dialogs ++ [(filename, Processor.mk m.nextPid
          (loadT (m.dialog_save_path ++ "/" ++ filename)))]) = some p
        rw [lookupKey_append_self filename _ m.dialogs hcache, hp]
    | some s =>
      cases hex : fsE (m.dialog_save_path ++ "/" ++ filename) with
      | false =>
        exfalso
        unfold BasicDialogManager.load_dialog at hb
        rw [hcache, hmn] at hb
        simp [hex] at hb
      | true =>
        have hfst : BasicDialogManager.load_dialog fsE loadT sel m filename =
            ({ m with
                dialogs := m.dialogs ++ [(filename, Processor.mk m.nextPid
                  (loadT (m.dialog_save_path ++ "/" ++ filename)))]
                nextPid := m.nextPid + 1
                active_dialog := some filename },
             Except.ok (Processor.mk m.nextPid
               (loadT (m.dialog_save_path ++ "/" ++ filename)))) := by
          unfold BasicDialogManager.load_dialog
          rw [hcache, hmn]
          simp [hex, hmn]
        rw [hfst] at hb ⊢
        have hp : Processor.mk m.nextPid
            (loadT (m.dialog_save_path ++ "/" ++ filename)) = p := by simpa using hb
        refine ⟨?_, by simp, by simp⟩
        show lookupKey filename (m.dialogs ++ [(filename, Processor.mk m.nextPid
          (loadT (m.dialog_save_path ++ "/" ++ filename)))]) = some p
        rw [lookupKey_append_self filename _ m.dialogs hcache, hp]

/-- After a successful `prepare_agent`, the returned processor is cached
under the agent and the cache grew by at most one entry. -/
theorem prepare_agent_spec (selA : Except String String)
    (loadTA : String → Timeline) (m : AgentDialogManager) (agent : Agent)
    (q : Processor)
    (ha : (AgentDialogManager.prepare_agent selA loadTA m agent).2 = Except.ok q) :
    lookupKey agent
        (AgentDialogManager.prepare_agent selA loadTA m agent).1.processors = some q ∧
    (AgentDialogManager.prepare_agent selA loadTA m agent).1.processors.length ≤
      m.processors.length + 1 ∧
    (AgentDialogManager.prepare_agent selA loadTA m agent).1.nextPid ≤
      m.nextPid + 1 := by
  cases hcache : lookupKey agent m.processors with
  | some q0 =>
    rw [prepare_agent_cached selA loadTA m agent q0 hcache] at ha ⊢
    have hq : q0 = q := by simpa using ha
    subst hq
    exact ⟨hcache, by simp, by simp⟩
  | none =>
    by_cases hmn : m.model_name.getD "" = ""
    · cases hselA : selA with
      | error err =>
        exfalso
        unfold AgentDialogManager.prepare_agent at ha
        rw [hcache, if_pos hmn, hselA] at ha
        simp at ha
      | ok mn =>
        have hfst : AgentDialogManager.prepare_agent (Except.ok mn) loadTA m agent =
            ({ m with
                model_name := some mn
                processors := m.processors ++
                  [(agent, Processor.mk m.nextPid (loadTA agent.content))]
                nextPid := m.nextPid + 1
                active_agent := some agent },
             Except.ok (Processor.mk m.nextPid (loadTA agent.content))) := by
          unfold AgentDialogManager.prepare_agent
          rw [hcache, if_pos hmn]
        rw [hselA] at ha
        rw [hfst] at ha ⊢
        have hq : Processor.mk m.nextPid (loadTA agent.content) = q := by simpa using ha
        refine ⟨?_, by simp, by simp⟩
        show lookupKey agent (m.processors ++
          [(agent, Processor.mk m.nextPid (loadTA agent.content))]) = some q
        rw [lookupKey_append_self agent _ m.processors hcache, hq]
    · have hfst : AgentDialogManager.prepare_agent selA loadTA m agent =
          ({ m with
              processors := m.processors ++
                [(agent, Processor.mk m.nextPid (loadTA agent.content))]
              nextPid := m.nextPid + 1
              active_agent := some agent },
           Except.ok (Processor.mk m.nextPid (loadTA agent.content))) := by
        unfold AgentDialogManager.prepare_agent
        rw [hcache, if_neg hmn]
      rw [hfst] at ha ⊢
      have hq : Processor.mk m.nextPid (loadTA agent.content) = q := by simpa using ha
      refine ⟨?_, by simp, by simp⟩
      show lookupKey agent (m.processors ++
        [(agent, Processor.mk m.nextPid (loadTA agent.content))]) = some q
      rw [lookupKey_append_self agent _ m.processors hcache, hq]

/-- Claim C6: for each router variant, at most one Processor exists per
conversation identity: a second prepare/load call for the same identity
returns the identical cached Processor (same `pid`, hence the same
accumulated Timeline), creates nothing new (`nextPid` and the cache are
unchanged), and the first call grew the cache by at most one entry. -/
theorem router_single_processor_per_identity
    (fsE : String → Bool) (loadT loadTA : String → Timeline)
    (sel : String) (selA : Except String String)
    (bm : BasicDialogManager) (filename : String) (p : Processor)
    (am : AgentDialogManager) (agent : Agent) (q : Processor)
    (hb : (BasicDialogManager.load_dialog fsE loadT sel bm filename).2 = Except.ok p)
    (ha : (AgentDialogManager.prepare_agent selA loadTA am agent).2 = Except.ok q) :
    ((BasicDialogManager.load_dialog fsE loadT sel
        (BasicDialogManager.load_dialog fsE loadT sel bm filename).1 filename).2 =
      Except.ok p ∧
     (BasicDialogManager.load_dialog fsE loadT sel
        (BasicDialogManager.load_dialog fsE loadT sel bm filename).1 filename).1.dialogs =
      (BasicDialogManager.load_dialog fsE loadT sel bm filename).1.dialogs ∧
     (BasicDialogManager.load_dialog fsE loadT sel
        (BasicDialogManager.load_dialog fsE loadT sel bm filename).1 filename).1.nextPid =
      (BasicDialogManager.load_dialog fsE loadT sel bm filename).1.nextPid ∧
     (BasicDialogManager.load_dialog fsE loadT sel bm filename).1.dialogs.length ≤
       bm.dialogs.length + 1) ∧
    ((AgentDialogManager.prepare_agent selA loadTA
        (AgentDialogManager.prepare_agent selA loadTA am agent).1 agent).2 =
      Except.ok q ∧
     (AgentDialogManager.prepare_agent selA loadTA
        (AgentDialogManager.prepare_agent selA loadTA am agent).1 agent).1.processors =
      (AgentDialogManager.prepare_agent selA loadTA am agent).1.processors ∧
     (AgentDialogManager.prepare_agent selA loadTA
        (AgentDialogManager.prepare_agent selA loadTA am agent).1 agent).1.nextPid =
      (AgentDialogManager.prepare_agent selA loadTA am agent).1.nextPid ∧
     (AgentDialogManager.prepare_agent selA loadTA am agent).1.processors.length ≤
       am.processors.length + 1) := by
  obtain ⟨hbl, hblen, _⟩ := load_dialog_spec fsE loadT sel bm filename p hb
  obtain ⟨hal, halen, _⟩ := prepare_agent_spec selA loadTA am agent q ha
  constructor
  · rw [load_dialog_cached fsE loadT sel _ filename p hbl]
    exact ⟨rfl, rfl, rfl, hblen⟩
  · rw [prepare_agent_cached selA loadTA _ agent q hal]
    exact ⟨rfl, rfl, rfl, halen⟩

/-- Claim C6 (witness): concrete empty routers; loading/preparing the same
identity twice returns the first call's processor both times. -/
theorem router_single_processor_per_identity_witness :
    ((BasicDialogManager.load_dialog (fun _ => true) (fun _ => Timeline.init) "anthropic"
        (BasicDialogManager.mk [] "save" none none 0) "d.json").2 =
      Except.ok (Processor.mk 0 Timeline.init) ∧
     (AgentDialogManager.prepare_agent (Except.ok "anthropic") (fun _ => Timeline.init)
        (AgentDialogManager.mk [] none none 0)
        (Agent.mk "a1" "agent one" "a1.json")).2 =
      Except.ok (Processor.mk 0 Timeline.init)) ∧
    ((BasicDialogManager.load_dialog (fun _ => true) (fun _ => Timeline.init) "anthropic"
        (BasicDialogManager.load_dialog (fun _ => true) (fun _ => Timeline.init) "anthropic"
          (BasicDialogManager.mk [] "save" none none 0) "d.json").1 "d.json").2 =
      Except.ok (Processor.mk 0 Timeline.init) ∧
     (AgentDialogManager.prepare_agent (Except.ok "anthropic") (fun _ => Timeline.init)
        (AgentDialogManager.prepare_agent (Except.ok "anthropic") (fun _ => Timeline.init)
          (AgentDialogManager.mk [] none none 0)
          (Agent.mk "a1" "agent one" "a1.json")).1
        (Agent.mk "a1" "agent one" "a1.json")).2 =
      Except.ok (Processor.mk 0 Timeline.init)) := by
  refine ⟨⟨rfl, rfl⟩, ?_, ?_⟩
  · exact (router_single_processor_per_identity (fun _ => true) (fun _ => Timeline.init)
      (fun _ => Timeline.init) "anthropic" (Except.ok "anthropic")
      (BasicDialogManager.mk [] "save" none none 0) "d.json" (Processor.mk 0 Timeline.init)
      (AgentDialogManager.mk [] none none 0) (Agent.mk "a1" "agent one" "a1.json")
      (Processor.mk 0 Timeline.init) rfl rfl).1.1
  · exact (router_single_processor_per_identity (fun _ => true) (fun _ => Timeline.init)
      (fun _ => Timeline.init) "anthropic" (Except.ok "anthropic")
      (BasicDialogManager.mk [] "save" none none 0) "d.json" (Processor.mk 0 Timeline.init)
      (AgentDialogManager.mk [] none none 0) (Agent.mk "a1" "agent one" "a1.json")
      (Processor.mk 0 Timeline.init) rfl rfl).2.1

/-- Claim C9: messaging an Agent with no cached processor fails with the
distinct `AgentNotPreparedError` kind, leaves the router state (and in
particular the processor cache) unchanged, and creates no cache entry for
that agent — the agent is not silently prepared. -/
theorem message_unprepared_agent_error (fs : String → Option String)
    (gen : List ConvMessage → Except ModelRequestException String)
    (m : AgentDialogManager) (agent : Agent) (user_input : String)
    (h : lookupKey agent m.processors = none) :
    AgentDialogManager.message fs gen m agent user_input =
      some (m, Except.error (DialogError.agentNotPrepared
        "The provided agent is not prepared")) ∧
    (AgentDialogManager.message fs gen m agent user_input).map
      (fun r => lookupKey agent r.1.processors) = some none := by
  have h1 : AgentDialogManager.message fs gen m agent user_input =
      some (m, Except.error (DialogError.agentNotPrepared
        "The provided agent is not prepared")) := by
    unfold AgentDialogManager.message
    rw [h]
  exact ⟨h1, by rw [h1]; simp [h]⟩

/-- Claim C9 (witness): messaging a never-prepared agent on an empty Agent
router returns the not-prepared error and leaves the empty cache without
an entry. -/
theorem message_unprepared_agent_error_witness :
    lookupKey (Agent.mk "a1" "agent one" "a1.json")
      (AgentDialogManager.mk [] none none 0).processors = none ∧
    AgentDialogManager.message (fun _ => none)
        (fun _ => Except.ok "reply") (AgentDialogManager.mk [] none none 0)
        (Agent.mk "a1" "agent one" "a1.json") "hello" =
      some (AgentDialogManager.mk [] none none 0,
        Except.error (DialogError.agentNotPrepared
          "The provided agent is not prepared")) :=
  ⟨rfl,
   (message_unprepared_agent_error (fun _ => none) (fun _ => Except.ok "reply")
     (AgentDialogManager.mk [] none none 0)
     (Agent.mk "a1" "agent one" "a1.json") "hello" rfl).1⟩

end UDC
